import Mathlib

/-!
Verification of the calculator expression engine in `src/script.js`
(tokenizer → shunting-yard parser → RPN evaluator).

Modelling conventions:

* JavaScript numbers are idealized as exact rational arithmetic.  The type
  `Q` is an explicit numerator/denominator pair over `Int` (denominator kept
  positive by every operation), so that all arithmetic reduces inside the
  kernel and concrete runs of the pipeline can be settled by `decide`.
  Non-finite doubles are modelled by the extra constructors of `JSNum`
  (`posInf`, `negInf`, `nan`), with the IEEE-754 / ECMAScript case tables
  written out where the source can produce them.
* The transcendental functions (`Math.sin`, …) are genuinely irrational on
  almost all inputs, so they are parameters of the development: a `MathFns`
  record supplies them.  The values ECMAScript pins down exactly
  (`Math.log(0) = -∞`, `Math.log(1) = 0`, `Math.sqrt` of negatives, …) are
  handled before the record is consulted, mirroring the ES specification of
  the corresponding `Math` builtins used by the source.
* `Math.PI` and `Math.E` are the exact rational values of the float64
  constants used by the source.
-/

namespace AiCalc

/-- Exact rational: numerator `n` and denominator `d` (all operations keep
`d` positive; concrete pipeline runs only ever produce canonical values). -/
structure Q where
  n : Int
  d : Int
deriving DecidableEq, Repr

/-- Embed an integer. -/
def Q.int (k : Int) : Q := ⟨k, 1⟩

def Q.add (a b : Q) : Q := ⟨a.n * b.d + b.n * a.d, a.d * b.d⟩

def Q.sub (a b : Q) : Q := ⟨a.n * b.d - b.n * a.d, a.d * b.d⟩

def Q.mul (a b : Q) : Q := ⟨a.n * b.n, a.d * b.d⟩

/-- Division, with the sign moved to the numerator so the denominator stays
positive; callers guard against a zero divisor. -/
def Q.divQ (a b : Q) : Q :=
  if b.n < 0 then ⟨-(a.n * b.d), a.d * -b.n⟩ else ⟨a.n * b.d, a.d * b.n⟩

def Q.neg (a : Q) : Q := ⟨-a.n, a.d⟩

/-- Reciprocal (caller guards `a.n ≠ 0`), sign moved to the numerator. -/
def Q.inv (a : Q) : Q :=
  if a.n < 0 then ⟨-a.d, -a.n⟩ else ⟨a.d, a.n⟩

def Q.isZero (a : Q) : Bool := a.n = 0

def Q.isNeg (a : Q) : Bool := a.n < 0

/-- Does the rational represent an integer (JS `Math.floor(n) === n`)? -/
def Q.isInt (a : Q) : Bool := a.n % a.d = 0

/-- Value comparison `a ≤ k` against an integer bound (`d` positive). -/
def Q.leInt (a : Q) (k : Int) : Bool := a.n ≤ k * a.d

/-- Integer value of an integral rational. -/
def Q.toInt (a : Q) : Int := a.n / a.d

/-- Is the absolute value greater than one (used by `Math.pow` with an
infinite exponent)? -/
def Q.absGtOne (a : Q) : Bool := a.d < a.n ∨ a.n < -a.d

/-- Is the absolute value exactly one? -/
def Q.absEqOne (a : Q) : Bool := a.n = a.d ∨ a.n = -a.d

def Q.powNat (a : Q) (k : Nat) : Q := ⟨a.n ^ k, a.d ^ k⟩

/-- Integer power, with negative exponents via the reciprocal. -/
def Q.powInt (a : Q) (k : Int) : Q :=
  if k < 0 then (Q.inv a).powNat (-k).toNat else a.powNat k.toNat

/-- Exact value of the float64 constant `Math.PI`. -/
def piJS : Q := ⟨884279719003555, 281474976710656⟩

/-- Exact value of the float64 constant `Math.E`. -/
def eJS : Q := ⟨6121026514868073, 2251799813685248⟩

/-- A JavaScript number: a finite (idealized-exact) value or one of the
three non-finite doubles. -/
inductive JSNum where
  | fin (q : Q)
  | posInf
  | negInf
  | nan
deriving DecidableEq, Repr

/-- JS `Number.isFinite`. -/
def isFiniteB : JSNum → Bool
  | .fin _ => true
  | _ => false

/-- JS `+` on numbers (IEEE case table; finite arithmetic idealized exact). -/
def jsAdd : JSNum → JSNum → JSNum
  | .nan, _ => .nan
  | _, .nan => .nan
  | .posInf, .negInf => .nan
  | .negInf, .posInf => .nan
  | .posInf, _ => .posInf
  | _, .posInf => .posInf
  | .negInf, _ => .negInf
  | _, .negInf => .negInf
  | .fin a, .fin b => .fin (a.add b)

/-- JS binary `-` on numbers. -/
def jsSub : JSNum → JSNum → JSNum
  | .nan, _ => .nan
  | _, .nan => .nan
  | .posInf, .posInf => .nan
  | .negInf, .negInf => .nan
  | .posInf, _ => .posInf
  | _, .posInf => .negInf
  | .negInf, _ => .negInf
  | _, .negInf => .posInf
  | .fin a, .fin b => .fin (a.sub b)

/-- JS `*` on numbers (`±∞ * 0 = NaN`, signs as usual). -/
def jsMul : JSNum → JSNum → JSNum
  | .nan, _ => .nan
  | _, .nan => .nan
  | .posInf, .posInf => .posInf
  | .posInf, .negInf => .negInf
  | .negInf, .posInf => .negInf
  | .negInf, .negInf => .posInf
  | .posInf, .fin b => if b.isZero then .nan else if b.isNeg then .negInf else .posInf
  | .fin a, .posInf => if a.isZero then .nan else if a.isNeg then .negInf else .posInf
  | .negInf, .fin b => if b.isZero then .nan else if b.isNeg then .posInf else .negInf
  | .fin a, .negInf => if a.isZero then .nan else if a.isNeg then .posInf else .negInf
  | .fin a, .fin b => .fin (a.mul b)

/-- JS `/` on numbers (division by zero gives a signed infinity, `0/0` gives
NaN, a finite over an infinity gives zero; the sign of zero is not
modelled). -/
def jsDiv : JSNum → JSNum → JSNum
  | .nan, _ => .nan
  | _, .nan => .nan
  | .posInf, .posInf => .nan
  | .posInf, .negInf => .nan
  | .negInf, .posInf => .nan
  | .negInf, .negInf => .nan
  | .posInf, .fin b => if b.isNeg then .negInf else .posInf
  | .negInf, .fin b => if b.isNeg then .posInf else .negInf
  | .fin _, .posInf => .fin (Q.int 0)
  | .fin _, .negInf => .fin (Q.int 0)
  | .fin a, .fin b =>
    if b.isZero then
      if a.isZero then .nan else if a.isNeg then .negInf else .posInf
    else .fin (a.divQ b)

/-- JS unary `-` on numbers. -/
def jsNeg : JSNum → JSNum
  | .nan => .nan
  | .posInf => .negInf
  | .negInf => .posInf
  | .fin a => .fin a.neg

/-- The transcendental `Math` functions the source calls, as parameters:
they are irrational on the inputs reaching them, so the development is
generic over their (finite-valued) idealizations. -/
structure MathFns where
  sinQ : Q → Q
  cosQ : Q → Q
  tanQ : Q → Q
  lnIrr : Q → Q
  logIrr : Q → Q
  sqrtIrr : Q → Q
  powIrr : Q → Q → Q

/-- An arbitrary concrete instantiation of `MathFns`, used to state closed
facts that do not depend on the transcendental values. -/
def stubMath : MathFns :=
  ⟨fun _ => Q.int 0, fun _ => Q.int 0, fun _ => Q.int 0,
   fun _ => Q.int 0, fun _ => Q.int 0, fun _ => Q.int 0,
   fun _ _ => Q.int 0⟩

/-- JS `Math.pow` (ES `Number::exponentiate` case table; a finite base with
a finite non-integral exponent is delegated to `powIrr`). -/
def jsPow (M : MathFns) : JSNum → JSNum → JSNum
  | _, .nan => .nan
  | a, .posInf =>
    match a with
    | .nan => .nan
    | .posInf => .posInf
    | .negInf => .posInf
    | .fin q => if q.absGtOne then .posInf else if q.absEqOne then .nan else .fin (Q.int 0)
  | a, .negInf =>
    match a with
    | .nan => .nan
    | .posInf => .fin (Q.int 0)
    | .negInf => .fin (Q.int 0)
    | .fin q => if q.absGtOne then .fin (Q.int 0) else if q.absEqOne then .nan else .posInf
  | a, .fin e =>
    if e.isZero then .fin (Q.int 1)
    else
      match a with
      | .nan => .nan
      | .posInf => if e.isNeg then .fin (Q.int 0) else .posInf
      | .negInf =>
        if e.isNeg then .fin (Q.int 0)
        else if e.isInt && e.toInt % 2 = 1 then .negInf else .posInf
      | .fin b =>
        if e.isInt then
          if b.isZero && e.isNeg then .posInf else .fin (b.powInt e.toInt)
        else
          if b.isNeg then .nan
          else if b.isZero then (if e.isNeg then .posInf else .fin (Q.int 0))
          else .fin (M.powIrr b e)

/-- JS `Math.log` (natural logarithm): the values the ES spec pins down are
produced directly, positive arguments other than `1` are delegated. -/
def jsLog (M : MathFns) : JSNum → JSNum
  | .nan => .nan
  | .posInf => .posInf
  | .negInf => .nan
  | .fin x =>
    if x.isNeg then .nan
    else if x.isZero then .negInf
    else if x.n = x.d then .fin (Q.int 0)
    else .fin (M.lnIrr x)

/-- JS `Math.log10` (the source checks `typeof Math.log10 === 'function'`,
which holds, so the `Math.log10` branch is the one modelled). -/
def jsLog10 (M : MathFns) : JSNum → JSNum
  | .nan => .nan
  | .posInf => .posInf
  | .negInf => .nan
  | .fin x =>
    if x.isNeg then .nan
    else if x.isZero then .negInf
    else if x.n = x.d then .fin (Q.int 0)
    else .fin (M.logIrr x)

/-- JS `Math.sqrt`. -/
def jsSqrt (M : MathFns) : JSNum → JSNum
  | .nan => .nan
  | .posInf => .posInf
  | .negInf => .nan
  | .fin x =>
    if x.isNeg then .nan
    else if x.isZero then .fin (Q.int 0)
    else .fin (M.sqrtIrr x)

/-- The loop of `factorial` (src/script.js lines 55-56): `r = 1; for
(i = 2; i <= n; i++) r *= i`. -/
def facLoop (k : Nat) : Q :=
  (List.range' 2 (k - 1)).foldl (fun r i => r.mul (Q.int (Int.ofNat i))) (Q.int 1)

/-- JS function `factorial` (src/script.js lines 50-58), with its check
order: non-finite or negative, then non-integral, then `n > 170`. -/
def factorialJS : JSNum → Except String Q
  | .fin q =>
    if q.isNeg then .error "Invalid factorial"
    else if ¬ q.isInt then .error "Factorial requires integer"
    else if ¬ q.leInt 170 then .error "Result too large"
    else .ok (facLoop q.toInt.toNat)
  | _ => .error "Invalid factorial"

/-- JS function `trigOp` (src/script.js lines 61-74): finite-argument
check, degree→radian conversion when the mode flag is set, then dispatch;
`csc`, `sec`, `cot` are the reciprocals `1 / Math.sin(v)` etc. -/
def trigOp (M : MathFns) (useDegrees : Bool) (name : String) (x : JSNum) :
    Except String JSNum :=
  match x with
  | .fin v0 =>
    let v := if useDegrees then (v0.mul piJS).divQ (Q.int 180) else v0
    if name = "sin" then .ok (.fin (M.sinQ v))
    else if name = "cos" then .ok (.fin (M.cosQ v))
    else if name = "tan" then .ok (.fin (M.tanQ v))
    else if name = "csc" then .ok (jsDiv (.fin (Q.int 1)) (.fin (M.sinQ v)))
    else if name = "sec" then .ok (jsDiv (.fin (Q.int 1)) (.fin (M.cosQ v)))
    else if name = "cot" then .ok (jsDiv (.fin (Q.int 1)) (.fin (M.tanQ v)))
    else .error "Unknown trig"
  | _ => .error "Invalid trig arg"

/-- The five binary operators of the `OPS` table (src/script.js lines
134-140). -/
inductive BinOp where
  | add
  | sub
  | mul
  | div
  | pow
deriving DecidableEq, Repr

inductive OpAssoc where
  | left
  | right
deriving DecidableEq, Repr

/-- `OPS[o].prec`. -/
def prec : BinOp → Nat
  | .add => 2
  | .sub => 2
  | .mul => 3
  | .div => 3
  | .pow => 4

/-- `OPS[o].assoc`. -/
def assoc : BinOp → OpAssoc
  | .pow => .right
  | _ => .left

/-- `OPS[o].fn`. -/
def opFn (M : MathFns) : BinOp → JSNum → JSNum → JSNum
  | .add => jsAdd
  | .sub => jsSub
  | .mul => jsMul
  | .div => jsDiv
  | .pow => jsPow M

/-- Tokens (src/script.js `tokenize` and `toRPN`): the `func` constructor
is the synthetic marker the parser pushes (only ever with value `u-`);
the tokenizer never produces it. -/
inductive Tok where
  | num (q : Q)
  | name (s : String)
  | lparen
  | rparen
  | comma
  | post (c : Char)
  | op (o : BinOp)
  | func (s : String)
deriving DecidableEq, Repr

def isDigitC (c : Char) : Bool := '0' ≤ c && c ≤ '9'

def isAlphaC (c : Char) : Bool := ('a' ≤ c && c ≤ 'z') || ('A' ≤ c && c ≤ 'Z')

def isNumC (c : Char) : Bool := isDigitC c || c = '.'

def isAlnumC (c : Char) : Bool := isAlphaC c || isDigitC c

def jsWs (c : Char) : Bool :=
  c = ' ' || c = '\t' || c = '\n' || c = '\r' || c = '\x0b' || c = '\x0c'

def digitsVal (cs : List Char) : Int :=
  cs.foldl (fun a c => 10 * a + (c.toNat - '0'.toNat : Int)) 0

/-- JS `parseFloat` on the digit/dot strings the tokenizer accepts (at most
one dot), idealized exact. -/
def parseQ (cs : List Char) : Q :=
  let intP := cs.takeWhile (fun c => c ≠ '.')
  match cs.dropWhile (fun c => c ≠ '.') with
  | [] => Q.int (digitsVal intP)
  | _ :: frac => ⟨digitsVal intP * (10 : Int) ^ frac.length + digitsVal frac,
                  (10 : Int) ^ frac.length⟩

/-- JS function `tokenize` (src/script.js lines 77-131), fuelled so the
multi-character scans stay structurally recursive; `tokenizeChars` always
supplies enough fuel (every step consumes at least one character). -/
def tokAux : Nat → List Char → Except String (List Tok)
  | 0, _ => .error "Out of fuel"
  | _ + 1, [] => .ok []
  | fuel + 1, c :: cs =>
    if jsWs c then tokAux fuel cs
    else if isDigitC c || (c = '.' && isDigitC (cs.headD ' ')) then
      let numStr := c :: cs.takeWhile isNumC
      if 1 < (numStr.filter (fun x => x = '.')).length then .error "Invalid number"
      else (tokAux fuel (cs.dropWhile isNumC)).map (Tok.num (parseQ numStr) :: ·)
    else if isAlphaC c then
      let nm := String.mk ((c :: cs.takeWhile isAlnumC).map Char.toLower)
      (tokAux fuel (cs.dropWhile isAlnumC)).map (Tok.name nm :: ·)
    else if c = '(' then (tokAux fuel cs).map (Tok.lparen :: ·)
    else if c = ')' then (tokAux fuel cs).map (Tok.rparen :: ·)
    else if c = ',' then (tokAux fuel cs).map (Tok.comma :: ·)
    else if c = '!' || c = '%' then (tokAux fuel cs).map (Tok.post c :: ·)
    else if c = '+' then (tokAux fuel cs).map (Tok.op .add :: ·)
    else if c = '-' then (tokAux fuel cs).map (Tok.op .sub :: ·)
    else if c = '*' then (tokAux fuel cs).map (Tok.op .mul :: ·)
    else if c = '/' then (tokAux fuel cs).map (Tok.op .div :: ·)
    else if c = '^' then (tokAux fuel cs).map (Tok.op .pow :: ·)
    else if c = '÷' then (tokAux fuel cs).map (Tok.op .div :: ·)
    else if c = '×' then (tokAux fuel cs).map (Tok.op .mul :: ·)
    else if c = '−' || c = '—' then (tokAux fuel cs).map (Tok.op .sub :: ·)
    else .error ("Unexpected character: " ++ String.mk [c])

def tokenizeChars (cs : List Char) : Except String (List Tok) :=
  tokAux (cs.length + 1) cs

/-- The pre-normalization of `internalEvaluateExpression` (src/script.js
lines 287-291): map the unicode operator variants `÷ × −` to ASCII and
strip whitespace. -/
def normalizeChar (c : Char) : Char :=
  if c = '÷' then '/' else if c = '×' then '*' else if c = '−' then '-' else c

def normalize (s : String) : List Char :=
  (s.data.map normalizeChar).filter (fun c => ¬ jsWs c)

/-- Working state of `toRPN` (src/script.js lines 143-145): output queue,
operator stack (head is the top) and the previously processed input token. -/
structure SYState where
  out : List Tok
  stk : List Tok
  prev : Option Tok
deriving DecidableEq, Repr

/-- The pop condition of the precedence loop (src/script.js line 180). -/
def popCond (o1 o2 : BinOp) : Bool :=
  (assoc o1 = .left && prec o1 ≤ prec o2) || (assoc o1 = .right && prec o1 < prec o2)

/-- The `while` loop of the binary-operator branch (src/script.js lines
174-186): pop stack entries of type `op` while the precedence condition
holds; any other entry (paren, pending function, unary marker) stops it. -/
def popWhileOp (o : BinOp) : List Tok → List Tok × List Tok
  | [] => ([], [])
  | t :: r =>
    match t with
    | Tok.op o2 =>
      if popCond o o2 then (Tok.op o2 :: (popWhileOp o r).1, (popWhileOp o r).2)
      else ([], Tok.op o2 :: r)
    | _ => ([], t :: r)

/-- Pop until a left paren is on top (the loops at src/script.js lines
163-165 and 193-195): returns the popped entries (in pop order) and the
remaining stack, whose head is the `lparen` when one was found. -/
def popToLParen : List Tok → List Tok × List Tok
  | [] => ([], [])
  | t :: r =>
    if t = Tok.lparen then ([], t :: r)
    else (t :: (popToLParen r).1, (popToLParen r).2)

/-- The unary-minus test (src/script.js line 169): previous token is
absent, a binary operator, a left paren, or a comma. -/
def isUnaryPos : Option Tok → Bool
  | none => true
  | some (Tok.op _) => true
  | some Tok.lparen => true
  | some Tok.comma => true
  | some _ => false

/-- One iteration of the `toRPN` token loop (src/script.js lines 147-209).
The `prev` field is set to the input token in every branch, as in the
source. -/
def syStep (st : SYState) (t : Tok) : Except String SYState :=
  match t with
  | Tok.num _ => .ok ⟨st.out ++ [t], st.stk, some t⟩
  | Tok.name s =>
    if s = "pi" then .ok ⟨st.out ++ [Tok.num piJS], st.stk, some t⟩
    else if s = "e" then .ok ⟨st.out ++ [Tok.num eJS], st.stk, some t⟩
    else .ok ⟨st.out, Tok.name s :: st.stk, some t⟩
  | Tok.comma =>
    if (popToLParen st.stk).2.isEmpty then .error "Misplaced comma or parentheses"
    else .ok ⟨st.out ++ (popToLParen st.stk).1, (popToLParen st.stk).2, some t⟩
  | Tok.op o =>
    if o = BinOp.sub && isUnaryPos st.prev then
      .ok ⟨st.out, Tok.func "u-" :: st.stk, some t⟩
    else
      .ok ⟨st.out ++ (popWhileOp o st.stk).1, Tok.op o :: (popWhileOp o st.stk).2, some t⟩
  | Tok.lparen => .ok ⟨st.out, Tok.lparen :: st.stk, some t⟩
  | Tok.rparen =>
    if (popToLParen st.stk).2.isEmpty then .error "Mismatched parentheses"
    else
      match (popToLParen st.stk).2.tail with
      | Tok.name f :: rest2 =>
        .ok ⟨st.out ++ (popToLParen st.stk).1 ++ [Tok.name f], rest2, some t⟩
      | Tok.func f :: rest2 =>
        .ok ⟨st.out ++ (popToLParen st.stk).1 ++ [Tok.func f], rest2, some t⟩
      | rest2 => .ok ⟨st.out ++ (popToLParen st.stk).1, rest2, some t⟩
  | Tok.post c => .ok ⟨st.out ++ [Tok.post c], st.stk, some t⟩
  | Tok.func _ => .error "Unknown token type: func"

def syRun : List Tok → SYState → Except String SYState
  | [], st => .ok st
  | t :: ts, st => (syStep st t).bind (syRun ts)

/-- The final unwinding of `toRPN` (src/script.js lines 211-215): a
leftover paren is an error, everything else is appended to the output in
pop order. -/
def syFinish (st : SYState) : Except String (List Tok) :=
  if st.stk.any (fun t => t = Tok.lparen || t = Tok.rparen) then
    .error "Mismatched parentheses"
  else .ok (st.out ++ st.stk)

/-- Run of `toRPN` from an arbitrary intermediate state. -/
def toRPNFrom (st : SYState) (ts : List Tok) : Except String (List Tok) :=
  (syRun ts st).bind syFinish

/-- JS function `toRPN` (src/script.js lines 142-218). -/
def toRPN (ts : List Tok) : Except String (List Tok) :=
  toRPNFrom ⟨[], [], none⟩ ts

/-- The `name`/`func` dispatch of `evalRPN` (src/script.js lines 243-272):
unary minus, the six trig names via `trigOp`, `ln`, `log`, `sqrt`, and the
unknown-function failure. -/
def applyName (M : MathFns) (useDegrees : Bool) (s : String) (st : List JSNum) :
    Except String (List JSNum) :=
  if s = "u-" then
    match st with
    | [] => .error "Invalid unary"
    | a :: rest => .ok (jsNeg a :: rest)
  else if s = "sin" ∨ s = "cos" ∨ s = "tan" ∨ s = "sec" ∨ s = "csc" ∨ s = "cot" then
    match st with
    | [] => .error "Invalid function arg"
    | a :: rest => (trigOp M useDegrees s a).map (· :: rest)
  else if s = "ln" then
    match st with
    | [] => .error "Invalid function arg"
    | a :: rest => .ok (jsLog M a :: rest)
  else if s = "log" then
    match st with
    | [] => .error "Invalid function arg"
    | a :: rest => .ok (jsLog10 M a :: rest)
  else if s = "sqrt" then
    match st with
    | [] => .error "Invalid function arg"
    | a :: rest => .ok (jsSqrt M a :: rest)
  else .error ("Unknown function: " ++ s)

/-- One token step of `evalRPN` (src/script.js lines 223-276) against the
numeric stack (head is the top).  Only the binary-operator branch carries
the `Number.isFinite` check (line 231). -/
def evalStep (M : MathFns) (useDegrees : Bool) (st : List JSNum) (t : Tok) :
    Except String (List JSNum) :=
  match t with
  | Tok.num q => .ok (.fin q :: st)
  | Tok.op o =>
    match st with
    | b :: a :: rest =>
      let r := opFn M o a b
      if isFiniteB r then .ok (r :: rest) else .error "Math error"
    | _ => .error "Invalid binary operation"
  | Tok.post c =>
    match st with
    | [] => .error "Invalid postfix operation"
    | a :: rest =>
      if c = '!' then (factorialJS a).map (fun q => JSNum.fin q :: rest)
      else if c = '%' then .ok (jsDiv a (.fin (Q.int 100)) :: rest)
      else .error ("Unknown postfix: " ++ String.mk [c])
  | Tok.name s => applyName M useDegrees s st
  | Tok.func s => applyName M useDegrees s st
  | _ => .error "Unhandled RPN token"

def evalSteps (M : MathFns) (useDegrees : Bool) :
    List Tok → List JSNum → Except String (List JSNum)
  | [], st => .ok st
  | t :: ts, st => (evalStep M useDegrees st t).bind (evalSteps M useDegrees ts)

/-- The final-state check of `evalRPN` (src/script.js lines 277-280):
exactly one value must remain, and it must be finite. -/
def finalize : List JSNum → Except String JSNum
  | [v] => if isFiniteB v then .ok v else .error "Result not finite"
  | _ => .error "Invalid expression"

/-- JS function `evalRPN` (src/script.js lines 221-281), with the
degree-mode flag (the ambient `useDegrees` read by `trigOp`) passed
explicitly: it is fixed for the whole run. -/
def evalRPN (M : MathFns) (useDegrees : Bool) (rpn : List Tok) : Except String JSNum :=
  (evalSteps M useDegrees rpn []).bind finalize

/-- JS function `internalEvaluateExpression` (src/script.js lines
285-296): normalize, tokenize, convert to RPN, evaluate. -/
def evaluate (M : MathFns) (useDegrees : Bool) (s : String) : Except String JSNum :=
  (tokenizeChars (normalize s)).bind fun ts =>
    (toRPN ts).bind fun rpn => evalRPN M useDegrees rpn

/-!
The global AI bridge (src/script.js lines 458-479) lives outside the IIFE
that defines `internalEvaluateExpression`, so the identifier is not in
scope there: `typeof internalEvaluateExpression` evaluates to
`'undefined'` in the shim's test (so the shim never binds
`window._internalEvaluate`), and the bare reference in the fallback of
`window.evaluateExpression` throws a `ReferenceError`, which the inner
`catch` turns into the string `"Error"`.
-/

/-- Modelled from the source's scoping: `internalEvaluateExpression` is
declared inside the IIFE (line 285) and is not visible to the top-level
bridge code (lines 458-479). -/
def internalInGlobalScope : Bool := false

/-- The part of the global (`window`) state the bridge reads. -/
structure GlobalEnv where
  internalEvaluate : Option (String → Except String JSNum)

/-- The shim at src/script.js lines 470-479: bind `window._internalEvaluate`
only when `internalEvaluateExpression` is a function in scope. -/
def envAfterShim (prior : GlobalEnv) : GlobalEnv :=
  if prior.internalEvaluate.isSome then prior
  else if internalInGlobalScope then
    { internalEvaluate := some (evaluate stubMath true) }
  else prior

/-- The global environment after the script loads. -/
def loadedEnv : GlobalEnv := envAfterShim ⟨none⟩

/-- A JS value returned by the bridge: a number or a string. -/
inductive JSResult where
  | numv (v : JSNum)
  | strv (s : String)
deriving DecidableEq, Repr

/-- The fallback of `window.evaluateExpression` (src/script.js line 465):
call `internalEvaluateExpression` if it is in scope; any throw — including
the `ReferenceError` when it is not in scope — yields `"Error"`. -/
def fallbackEval (s : String) : JSResult :=
  if internalInGlobalScope then
    match evaluate stubMath true s with
    | .ok v => .numv v
    | .error _ => .strv "Error"
  else .strv "Error"

/-- JS function `window.evaluateExpression` (src/script.js lines 460-467):
try `window._internalEvaluate` (a throw — including the `TypeError` from
calling an unbound value — falls through to the fallback). -/
def evaluateExpression (env : GlobalEnv) (s : String) : JSResult :=
  match env.internalEvaluate with
  | some f =>
    match f s with
    | .ok v => .numv v
    | .error _ => fallbackEval s
  | none => fallbackEval s

instance {e a : Type} [DecidableEq e] [DecidableEq a] : DecidableEq (Except e a) :=
  fun x y =>
  match x, y with
  | .ok u, .ok w =>
    if h : u = w then .isTrue (by rw [h]) else .isFalse (by intro hc; cases hc; exact h rfl)
  | .error u, .error w =>
    if h : u = w then .isTrue (by rw [h]) else .isFalse (by intro hc; cases hc; exact h rfl)
  | .ok _, .error _ => .isFalse (by intro hc; cases hc)
  | .error _, .ok _ => .isFalse (by intro hc; cases hc)

/-!
Specification-side definitions.  These formalize the spec's words, to be
compared with the implementation: an expression tree with the standard
reference evaluation, the canonical-reading predicate used by the
precedence claim, and the parenthesis/comma scan used by the
mismatched-paren claim.
-/

/-- Abstract syntax of a pure arithmetic expression (numeric literals and
binary operators only), spec side. -/
inductive AExp where
  | num (q : Q)
  | bin (o : BinOp) (l r : AExp)
deriving DecidableEq, Repr

/-- Standard evaluation of the tree, spec side: the operator table's
function at every node. -/
def specEval (M : MathFns) : AExp → JSNum
  | .num q => .fin q
  | .bin o l r => opFn M o (specEval M l) (specEval M r)

/-- Postfix (RPN) rendering of the tree. -/
def rpnOf : AExp → List Tok
  | .num q => [Tok.num q]
  | .bin o l r => rpnOf l ++ rpnOf r ++ [Tok.op o]

/-- Parenthesis-free infix rendering of the tree. -/
def flatten : AExp → List Tok
  | .num q => [Tok.num q]
  | .bin o l r => flatten l ++ Tok.op o :: flatten r

/-- The least binding level an operator claims for its right operand under
standard precedence/associativity: `prec + 1` for a left-associative
operator, `prec` for a right-associative one. -/
def nextMin (o : BinOp) : Nat := if assoc o = .left then prec o + 1 else prec o

/-- Right-spine operators of a tree, innermost first: exactly the
operators still pending on the shunting-yard stack after its flattening is
processed. -/
def pendOf : AExp → List BinOp
  | .num _ => []
  | .bin o _ r => pendOf r ++ [o]

/-- The part of `rpnOf` already emitted to the output when the flattening
has just been consumed (everything except the pending right spine). -/
def outOf : AExp → List Tok
  | .num q => [Tok.num q]
  | .bin _ l r => rpnOf l ++ outOf r

/-- Rightmost numeric leaf (the last token of the flattening). -/
def lastNum : AExp → Q
  | .num q => q
  | .bin _ _ r => lastNum r

/-- Does the tree read back from its parenthesis-free flattening under the
standard precedence/associativity rules, at binding level `m`?  Left-spine
operators must bind at least as tight as `m`, each operator must bind
looser than the pending right-spine operators of its left subtree (so they
complete before it applies), and the right subtree must read at the
operator's right-operand level. -/
def fitB : AExp → Nat → Bool
  | .num _, _ => true
  | .bin o l r, m =>
    decide (m ≤ prec o) && fitB l m &&
    (pendOf l).all (fun n => decide (prec o < nextMin n)) && fitB r (nextMin o)

/-- Stacks whose top can never be popped by an incoming binary operator of
precedence at least `m`: empty, a non-operator entry, or an operator whose
right-operand level is at most `m`. -/
def blockingB (m : Nat) : List Tok → Bool
  | [] => true
  | Tok.op o2 :: _ => decide (nextMin o2 ≤ m)
  | _ :: _ => true

/-- The claim's parenthesis/comma scan over a token sequence, carrying the
number of open parens: a right paren or a comma with no open paren, or a
leftover open paren at the end, is a mismatch. -/
def parensOK : List Tok → Nat → Bool
  | [], d => decide (d = 0)
  | Tok.lparen :: ts, d => parensOK ts (d + 1)
  | Tok.rparen :: ts, d => decide (0 < d) && parensOK ts (d - 1)
  | Tok.comma :: ts, d => decide (0 < d) && parensOK ts d
  | _ :: ts, d => parensOK ts d

/-- Token sequences without the parser-internal `func` marker (the
tokenizer never produces it). -/
def noFuncB (ts : List Tok) : Bool :=
  ts.all fun t => match t with | Tok.func _ => false | _ => true

/-- Number of open parens on the operator stack. -/
def lpCount (stk : List Tok) : Nat := (stk.filter (fun t => t = Tok.lparen)).length

/-!
Claim theorems and their supporting lemmas.
-/

/-- C1: the spec's unary-minus examples against the code.  The claimed
mechanism makes `UnaryMinusFunc` unpoppable by the precedence loop, so in
`"-5+3"` the `+` is emitted before the unary minus and the code returns
`-8`, not the claimed `-2`; the other two examples agree with the claim.
The mode flag and the transcendental functions are irrelevant here, so the
runs are stated at `stubMath`. -/
theorem c1_unary_minus_examples :
    evaluate stubMath true "-5+3" = .ok (.fin (Q.int (-8))) ∧
    evaluate stubMath true "3*-2" = .ok (.fin (Q.int (-6))) ∧
    evaluate stubMath true "3-(-2)" = .ok (.fin (Q.int 5)) :=
  ⟨by decide, by decide, by decide⟩

/-- C3: after the script loads, the shim has not bound
`window._internalEvaluate` (the IIFE-local evaluator is not in scope at
top level), and `window.evaluateExpression` returns the string `"Error"`
for every input. -/
theorem c3_bridge_always_error :
    loadedEnv.internalEvaluate = none ∧
    ∀ s : String, evaluateExpression loadedEnv s = JSResult.strv "Error" :=
  ⟨rfl, fun _ => rfl⟩

/-- C8: a postfix-operator token is emitted directly to the output at its
input position (the operator stack is untouched), and consequently binds
tighter than any binary operator: `evaluate "3+4!" = 27`. -/
theorem c8_postfix_direct_emit :
    (∀ (st : SYState) (c : Char),
      syStep st (Tok.post c) = .ok ⟨st.out ++ [Tok.post c], st.stk, some (Tok.post c)⟩) ∧
    ∀ (M : MathFns) (b : Bool), evaluate M b "3+4!" = .ok (.fin (Q.int 27)) :=
  ⟨fun _ _ => rfl, fun _ _ => rfl⟩

/-- C6: every trig step converts its argument by `· * π/180` exactly when
the degree flag is set (the flag is a parameter of the whole evaluation,
threaded unchanged to every step), `csc`, `sec`, `cot` are the reciprocals
of `sin`, `cos`, `tan`, and the evaluator's trig step is `trigOp` at the
evaluator's own flag. -/
theorem c6_trig_mode_and_reciprocals :
    ∀ (M : MathFns) (b : Bool) (v : Q) (a : JSNum) (st : List JSNum),
    (trigOp M b "sin" (.fin v) =
      .ok (.fin (M.sinQ (if b then (v.mul piJS).divQ (Q.int 180) else v)))) ∧
    (trigOp M b "cos" (.fin v) =
      .ok (.fin (M.cosQ (if b then (v.mul piJS).divQ (Q.int 180) else v)))) ∧
    (trigOp M b "tan" (.fin v) =
      .ok (.fin (M.tanQ (if b then (v.mul piJS).divQ (Q.int 180) else v)))) ∧
    (trigOp M b "csc" (.fin v) =
      .ok (jsDiv (.fin (Q.int 1)) (.fin (M.sinQ (if b then (v.mul piJS).divQ (Q.int 180) else v))))) ∧
    (trigOp M b "sec" (.fin v) =
      .ok (jsDiv (.fin (Q.int 1)) (.fin (M.cosQ (if b then (v.mul piJS).divQ (Q.int 180) else v))))) ∧
    (trigOp M b "cot" (.fin v) =
      .ok (jsDiv (.fin (Q.int 1)) (.fin (M.tanQ (if b then (v.mul piJS).divQ (Q.int 180) else v))))) ∧
    (evalStep M b (a :: st) (Tok.name "sin") = (trigOp M b "sin" a).map (· :: st)) ∧
    (evalStep M b (a :: st) (Tok.name "cos") = (trigOp M b "cos" a).map (· :: st)) ∧
    (evalStep M b (a :: st) (Tok.name "tan") = (trigOp M b "tan" a).map (· :: st)) ∧
    (evalStep M b (a :: st) (Tok.name "csc") = (trigOp M b "csc" a).map (· :: st)) ∧
    (evalStep M b (a :: st) (Tok.name "sec") = (trigOp M b "sec" a).map (· :: st)) ∧
    (evalStep M b (a :: st) (Tok.name "cot") = (trigOp M b "cot" a).map (· :: st)) :=
  fun _ _ _ _ _ =>
    ⟨rfl, rfl, rfl, rfl, rfl, rfl, rfl, rfl, rfl, rfl, rfl, rfl⟩

/-- C2 (amended): only the binary-operator step of the evaluator carries
the finiteness check; a name step can push a non-finite value which a
later step then consumes, e.g. `evaluate "1/ln(0)" = 0`. -/
theorem c2_finite_check_binary_only :
    (∀ (M : MathFns) (b : Bool) (o : BinOp) (x y : JSNum) (st : List JSNum),
      isFiniteB (opFn M o x y) = false →
      evalStep M b (y :: x :: st) (Tok.op o) = .error "Math error") ∧
    (∀ (M : MathFns) (b : Bool) (st : List JSNum),
      evalStep M b (.fin (Q.int 0) :: st) (Tok.name "ln") = .ok (.negInf :: st)) ∧
    ∀ (M : MathFns) (b : Bool), evaluate M b "1/ln(0)" = .ok (.fin (Q.int 0)) := by
  refine ⟨?_, fun _ _ _ => rfl, fun _ _ => rfl⟩
  intro M b o x y st h
  simp [evalStep, h]

/-- C2, counterexample to the claim as stated: the `ln` step pushes the
non-finite value `-∞` without failing, and the full pipeline on
`"1/ln(0)"` then consumes it and returns `0` instead of failing with the
non-finite-result error. -/
theorem c2_counterexample :
    evalSteps stubMath true [Tok.num (Q.int 0), Tok.name "ln"] [] = .ok [JSNum.negInf] ∧
    evaluate stubMath true "1/ln(0)" = .ok (.fin (Q.int 0)) :=
  ⟨by decide, by decide⟩

/-- C2, witness: the binary step does fail on a concrete non-finite
result (`1/0`). -/
theorem c2_witness :
    evalStep stubMath true [.fin (Q.int 0), .fin (Q.int 1)] (Tok.op .div) =
      .error "Math error" :=
  c2_finite_check_binary_only.1 stubMath true .div (.fin (Q.int 1)) (.fin (Q.int 0)) []
    (by decide)

/-- C9: the RPN evaluator returns a value only when exactly one value
remains on the stack after all tokens are processed; any other final stack
size fails with the invalid-expression error, and the returned value is
that single remaining value. -/
theorem c9_final_stack :
    ∀ (M : MathFns) (b : Bool) (rpn : List Tok) (st : List JSNum),
    evalSteps M b rpn [] = .ok st →
    ((st.length ≠ 1 → evalRPN M b rpn = .error "Invalid expression") ∧
     ∀ v, evalRPN M b rpn = .ok v → st = [v]) := by
  intro M b rpn st h
  unfold evalRPN
  rw [h]
  constructor
  · intro hlen
    match st, hlen with
    | [], _ => rfl
    | [v], hlen => exact absurd rfl hlen
    | _ :: _ :: _, _ => rfl
  · intro v hv
    match st, hv with
    | [w], hv =>
      have h2 : (if isFiniteB w then (Except.ok w : Except String JSNum)
          else .error "Result not finite") = .ok v := hv
      split at h2
      · cases h2; rfl
      · cases h2
    | [], hv => exact Except.noConfusion hv
    | _ :: _ :: _, hv => exact Except.noConfusion hv

/-- C9, witness: a two-value final stack is rejected with the
invalid-expression error. -/
theorem c9_witness :
    evalRPN stubMath true [Tok.num (Q.int 2), Tok.num (Q.int 3)] =
      .error "Invalid expression" :=
  (c9_final_stack stubMath true [Tok.num (Q.int 2), Tok.num (Q.int 3)]
    [.fin (Q.int 3), .fin (Q.int 2)] (by decide)).1 (by decide)

/-- C4 (amended): the tokenizer accepts an unresolved name and `toRPN`
also accepts it (any non-`pi`/`e` name is pushed as a pending function
marker and emitted); the failure happens at evaluation time, where the
name dispatch of `evalRPN` rejects it with the unknown-function error. -/
theorem c4_unknown_name_eval_time :
    (∀ s : String,
      s ∉ (["u-", "sin", "cos", "tan", "sec", "csc", "cot", "ln", "log", "sqrt"] : List String) →
      ∀ (M : MathFns) (b : Bool) (st : List JSNum),
      evalStep M b st (Tok.name s) = .error ("Unknown function: " ++ s)) ∧
    (∀ s : String, s ≠ "pi" → s ≠ "e" → ∀ st : SYState,
      syStep st (Tok.name s) = .ok ⟨st.out, Tok.name s :: st.stk, some (Tok.name s)⟩) ∧
    (tokenizeChars (normalize "foo(3)") =
      .ok [Tok.name "foo", Tok.lparen, Tok.num (Q.int 3), Tok.rparen] ∧
     toRPN [Tok.name "foo", Tok.lparen, Tok.num (Q.int 3), Tok.rparen] =
      .ok [Tok.num (Q.int 3), Tok.name "foo"] ∧
     ∀ (M : MathFns) (b : Bool),
      evaluate M b "foo(3)" = .error "Unknown function: foo") := by
  refine ⟨?_, ?_, by decide, by decide, fun _ _ => rfl⟩
  · intro s hs M b st
    simp only [List.mem_cons, List.not_mem_nil, or_false, not_or] at hs
    obtain ⟨h1, h2, h3, h4, h5, h6, h7, h8, h9, h10⟩ := hs
    simp [evalStep, applyName, h1, h2, h3, h4, h5, h6, h7, h8, h9, h10]
  · intro s hpi he st
    simp [syStep, hpi, he]

/-- C4, counterexample to the claim as stated: on the input `"foo(3)"`
the parser accepts the unresolved name (no parse-time error), and the
error only appears when the evaluator reaches the name. -/
theorem c4_counterexample :
    toRPN [Tok.name "foo", Tok.lparen, Tok.num (Q.int 3), Tok.rparen] =
      .ok [Tok.num (Q.int 3), Tok.name "foo"] ∧
    evalRPN stubMath true [Tok.num (Q.int 3), Tok.name "foo"] =
      .error "Unknown function: foo" :=
  ⟨by decide, by decide⟩

/-- C4, witness: the evaluator-step part at the concrete name `foo`. -/
theorem c4_witness :
    evalStep stubMath true [JSNum.fin (Q.int 3)] (Tok.name "foo") =
      .error ("Unknown function: " ++ "foo") :=
  c4_unknown_name_eval_time.1 "foo" (by decide) stubMath true [JSNum.fin (Q.int 3)]

/-- The loop `r = 1; for (i = 2; i <= n; i++) r *= i` computes the
factorial. -/
theorem facLoop_eq_factorial : ∀ k : Nat, facLoop k = Q.int (Nat.factorial k)
  | 0 => by decide
  | 1 => by decide
  | (m + 2) => by
    have ih := facLoop_eq_factorial (m + 1)
    unfold facLoop at ih ⊢
    rw [show m + 2 - 1 = m + 1 from rfl]
    rw [show m + 1 - 1 = m from rfl] at ih
    rw [List.range'_concat, List.foldl_append, ih]
    simp only [List.foldl_cons, List.foldl_nil, Q.mul, Q.int, Q.mk.injEq]
    constructor
    · push_cast [Nat.factorial_succ, Int.ofNat_eq_natCast]
      ring
    · ring

/-- C7: the `!` step pops one value and applies `factorial`, which fails
unless the value is finite, non-negative, integral and at most `170`, and
otherwise produces the iterative product `2·3·…·a` — the factorial, with
`0! = 1! = 1`. -/
theorem c7_factorial_step :
    (∀ (M : MathFns) (b : Bool) (a : JSNum) (st : List JSNum),
      evalStep M b (a :: st) (Tok.post '!') = (factorialJS a).map (fun q => JSNum.fin q :: st)) ∧
    (∀ (M : MathFns) (b : Bool), evalStep M b [] (Tok.post '!') = .error "Invalid postfix operation") ∧
    (∀ q : Q, q.isNeg = false → q.isInt = true → q.leInt 170 = true →
      factorialJS (.fin q) = .ok (facLoop q.toInt.toNat)) ∧
    (∀ q : Q, q.isNeg = true ∨ q.isInt = false ∨ q.leInt 170 = false →
      ∃ m, factorialJS (.fin q) = .error m) ∧
    (factorialJS .posInf = .error "Invalid factorial" ∧
     factorialJS .negInf = .error "Invalid factorial" ∧
     factorialJS .nan = .error "Invalid factorial") ∧
    ∀ k : Nat, facLoop k = Q.int (Nat.factorial k) := by
  refine ⟨fun _ _ _ _ => rfl, fun _ _ => rfl, ?_, ?_, ⟨rfl, rfl, rfl⟩, facLoop_eq_factorial⟩
  · intro q h1 h2 h3
    simp [factorialJS, h1, h2, h3]
  · intro q h
    rcases h with h | h | h
    · exact ⟨"Invalid factorial", by simp [factorialJS, h]⟩
    · cases hn : q.isNeg with
      | true => exact ⟨"Invalid factorial", by simp [factorialJS, hn]⟩
      | false => exact ⟨"Factorial requires integer", by simp [factorialJS, hn, h]⟩
    · cases hn : q.isNeg with
      | true => exact ⟨"Invalid factorial", by simp [factorialJS, hn]⟩
      | false =>
        cases hi : q.isInt with
        | false => exact ⟨"Factorial requires integer", by simp [factorialJS, hn, hi]⟩
        | true => exact ⟨"Result too large", by simp [factorialJS, hn, hi, h]⟩

/-- C7, witness: `4!` succeeds and `(7/2)!` fails. -/
theorem c7_witness :
    factorialJS (.fin (Q.int 4)) = .ok (facLoop (Q.int 4).toInt.toNat) ∧
    ∃ m, factorialJS (.fin ⟨7, 2⟩) = .error m :=
  ⟨c7_factorial_step.2.2.1 (Q.int 4) (by decide) (by decide) (by decide),
   c7_factorial_step.2.2.2.1 ⟨7, 2⟩ (by decide)⟩

theorem except_bind_ok {e a b : Type} (x : a) (f : a → Except e b) :
    (Except.ok x).bind f = f x := rfl

theorem except_bind_err {e a b : Type} (m : e) (f : a → Except e b) :
    (Except.error m : Except e a).bind f = .error m := rfl

theorem lpCount_cons (t : Tok) (l : List Tok) :
    lpCount (t :: l) = if t = Tok.lparen then lpCount l + 1 else lpCount l := by
  by_cases h : t = Tok.lparen <;> simp [lpCount, List.filter_cons, h]

theorem lpCount_zero_iff (l : List Tok) : lpCount l = 0 ↔ Tok.lparen ∉ l := by
  induction l with
  | nil => simp [lpCount]
  | cons t r ih =>
    by_cases h : t = Tok.lparen
    · subst h
      simp [lpCount_cons]
    · have h2 : ¬(Tok.lparen = t) := fun he => h he.symm
      simp [lpCount_cons, h, h2, ih]

theorem popToLParen_append : ∀ l : List Tok, (popToLParen l).1 ++ (popToLParen l).2 = l := by
  intro l
  induction l with
  | nil => rfl
  | cons t r ih => by_cases h : t = Tok.lparen <;> simp [popToLParen, h, ih]

theorem popToLParen_rest_lpCount : ∀ l : List Tok, lpCount (popToLParen l).2 = lpCount l := by
  intro l
  induction l with
  | nil => rfl
  | cons t r ih =>
    by_cases h : t = Tok.lparen
    · simp [popToLParen, h]
    · simp [popToLParen, h, ih, lpCount_cons]

theorem popToLParen_rest_empty_iff :
    ∀ l : List Tok, (popToLParen l).2 = [] ↔ lpCount l = 0 := by
  intro l
  induction l with
  | nil => simp [popToLParen, lpCount]
  | cons t r ih =>
    by_cases h : t = Tok.lparen
    · simp [popToLParen, h, lpCount_cons]
    · simp [popToLParen, h, ih, lpCount_cons]

theorem popToLParen_rest_head :
    ∀ l : List Tok, (popToLParen l).2 = [] ∨ ∃ r2, (popToLParen l).2 = Tok.lparen :: r2 := by
  intro l
  induction l with
  | nil => exact Or.inl rfl
  | cons t r ih =>
    by_cases h : t = Tok.lparen
    · exact Or.inr ⟨r, by simp [popToLParen, h]⟩
    · simpa [popToLParen, h] using ih

theorem popWhileOp_append (o : BinOp) :
    ∀ l : List Tok, (popWhileOp o l).1 ++ (popWhileOp o l).2 = l := by
  intro l
  induction l with
  | nil => rfl
  | cons t r ih =>
    cases t <;> simp [popWhileOp]
    case op o2 =>
      by_cases h : popCond o o2 <;> simp [h, ih]

theorem popWhileOp_rest_lpCount (o : BinOp) :
    ∀ l : List Tok, lpCount (popWhileOp o l).2 = lpCount l := by
  intro l
  induction l with
  | nil => rfl
  | cons t r ih =>
    cases t <;> simp [popWhileOp]
    case op o2 =>
      by_cases h : popCond o o2 <;> simp [h, ih, lpCount_cons]

theorem toRPNFrom_cons (st : SYState) (t : Tok) (ts : List Tok) :
    toRPNFrom st (t :: ts) = (syStep st t).bind (fun st2 => toRPNFrom st2 ts) := by
  cases h : syStep st t with
  | error m => simp [toRPNFrom, syRun, h, except_bind_err]
  | ok st2 => simp [toRPNFrom, syRun, h, except_bind_ok]

theorem syFinish_ok (st : SYState) (h0 : lpCount st.stk = 0) (hr : Tok.rparen ∉ st.stk) :
    syFinish st = .ok (st.out ++ st.stk) := by
  have hany : st.stk.any (fun t => t = Tok.lparen || t = Tok.rparen) = false := by
    rw [List.any_eq_false]
    intro x hx
    have hxl : x ≠ Tok.lparen := fun he => ((lpCount_zero_iff _).1 h0) (he ▸ hx)
    have hxr : x ≠ Tok.rparen := fun he => hr (he ▸ hx)
    simp [hxl, hxr]
  simp [syFinish, hany]

theorem syFinish_err (st : SYState) (h0 : lpCount st.stk ≠ 0) :
    syFinish st = .error "Mismatched parentheses" := by
  have hm : Tok.lparen ∈ st.stk := by
    by_contra hc
    exact h0 ((lpCount_zero_iff _).2 hc)
  have hany : st.stk.any (fun t => t = Tok.lparen || t = Tok.rparen) = true := by
    rw [List.any_eq_true]
    exact ⟨Tok.lparen, hm, by simp⟩
  simp [syFinish, hany]

/-- Main parenthesis lemma: from any rparen-free stack, the parser run
succeeds exactly when the claim's paren/comma scan (seeded with the number
of open parens on the stack) accepts, and otherwise fails with one of the
two ParseError messages. -/
theorem syParen_main : ∀ (ts : List Tok) (st : SYState),
    noFuncB ts = true → Tok.rparen ∉ st.stk →
    ((parensOK ts (lpCount st.stk) = true → ∃ out, toRPNFrom st ts = .ok out) ∧
     (parensOK ts (lpCount st.stk) = false →
       toRPNFrom st ts = .error "Mismatched parentheses" ∨
       toRPNFrom st ts = .error "Misplaced comma or parentheses")) := by
  intro ts
  induction ts with
  | nil =>
    intro st _ hr
    constructor
    · intro hp
      have h0 : lpCount st.stk = 0 := by simpa [parensOK] using hp
      exact ⟨st.out ++ st.stk, by
        simp [toRPNFrom, syRun, except_bind_ok, syFinish_ok st h0 hr]⟩
    · intro hp
      have h0 : lpCount st.stk ≠ 0 := by simpa [parensOK] using hp
      exact Or.inl (by simp [toRPNFrom, syRun, except_bind_ok, syFinish_err st h0])
  | cons t ts ih =>
    intro st hnf hr
    have hnf2 : noFuncB ts = true := by
      simp only [noFuncB, List.all_cons, Bool.and_eq_true] at hnf
      exact hnf.2
    cases t with
    | num q =>
      rw [toRPNFrom_cons]
      have hst : syStep st (Tok.num q) =
          .ok ⟨st.out ++ [Tok.num q], st.stk, some (Tok.num q)⟩ := rfl
      rw [hst, except_bind_ok]
      simpa [parensOK] using
        ih ⟨st.out ++ [Tok.num q], st.stk, some (Tok.num q)⟩ hnf2 hr
    | post c =>
      rw [toRPNFrom_cons]
      have hst : syStep st (Tok.post c) =
          .ok ⟨st.out ++ [Tok.post c], st.stk, some (Tok.post c)⟩ := rfl
      rw [hst, except_bind_ok]
      simpa [parensOK] using
        ih ⟨st.out ++ [Tok.post c], st.stk, some (Tok.post c)⟩ hnf2 hr
    | name s =>
      rw [toRPNFrom_cons]
      by_cases hpi : s = "pi"
      · have hst : syStep st (Tok.name s) =
            .ok ⟨st.out ++ [Tok.num piJS], st.stk, some (Tok.name s)⟩ := by
          simp [syStep, hpi]
        rw [hst, except_bind_ok]
        simpa [parensOK] using
          ih ⟨st.out ++ [Tok.num piJS], st.stk, some (Tok.name s)⟩ hnf2 hr
      · by_cases he : s = "e"
        · have hst : syStep st (Tok.name s) =
              .ok ⟨st.out ++ [Tok.num eJS], st.stk, some (Tok.name s)⟩ := by
            simp [syStep, hpi, he]
          rw [hst, except_bind_ok]
          simpa [parensOK] using
            ih ⟨st.out ++ [Tok.num eJS], st.stk, some (Tok.name s)⟩ hnf2 hr
        · have hst : syStep st (Tok.name s) =
              .ok ⟨st.out, Tok.name s :: st.stk, some (Tok.name s)⟩ := by
            simp [syStep, hpi, he]
          rw [hst, except_bind_ok]
          have hr2 : Tok.rparen ∉ Tok.name s :: st.stk := by
            intro hm
            rcases List.mem_cons.1 hm with hm | hm
            · cases hm
            · exact hr hm
          have hc : lpCount (Tok.name s :: st.stk) = lpCount st.stk := by
            rw [lpCount_cons]; simp
          have := ih ⟨st.out, Tok.name s :: st.stk, some (Tok.name s)⟩ hnf2 hr2
          rw [show (⟨st.out, Tok.name s :: st.stk, some (Tok.name s)⟩ : SYState).stk =
              Tok.name s :: st.stk from rfl, hc] at this
          simpa [parensOK] using this
    | lparen =>
      rw [toRPNFrom_cons]
      have hst : syStep st Tok.lparen =
          .ok ⟨st.out, Tok.lparen :: st.stk, some Tok.lparen⟩ := rfl
      rw [hst, except_bind_ok]
      have hr2 : Tok.rparen ∉ Tok.lparen :: st.stk := by
        intro hm
        rcases List.mem_cons.1 hm with hm | hm
        · cases hm
        · exact hr hm
      have hc : lpCount (Tok.lparen :: st.stk) = lpCount st.stk + 1 := by
        rw [lpCount_cons]; simp
      have := ih ⟨st.out, Tok.lparen :: st.stk, some Tok.lparen⟩ hnf2 hr2
      rw [show (⟨st.out, Tok.lparen :: st.stk, some Tok.lparen⟩ : SYState).stk =
          Tok.lparen :: st.stk from rfl, hc] at this
      simpa [parensOK] using this
    | op o =>
      rw [toRPNFrom_cons]
      simp only [syStep]
      split
      · rw [except_bind_ok]
        have hr2 : Tok.rparen ∉ Tok.func "u-" :: st.stk := by
          intro hm
          rcases List.mem_cons.1 hm with hm | hm
          · cases hm
          · exact hr hm
        have hc : lpCount (Tok.func "u-" :: st.stk) = lpCount st.stk := by
          rw [lpCount_cons]; simp
        have := ih ⟨st.out, Tok.func "u-" :: st.stk, some (Tok.op o)⟩ hnf2 hr2
        rw [show (⟨st.out, Tok.func "u-" :: st.stk, some (Tok.op o)⟩ : SYState).stk =
            Tok.func "u-" :: st.stk from rfl, hc] at this
        simpa [parensOK] using this
      · rw [except_bind_ok]
        have hrw : Tok.rparen ∉ (popWhileOp o st.stk).2 := by
          intro hm
          exact hr (by
            rw [← popWhileOp_append o st.stk]
            exact List.mem_append_right _ hm)
        have hr2 : Tok.rparen ∉ Tok.op o :: (popWhileOp o st.stk).2 := by
          intro hm
          rcases List.mem_cons.1 hm with hm | hm
          · cases hm
          · exact hrw hm
        have hc : lpCount (Tok.op o :: (popWhileOp o st.stk).2) = lpCount st.stk := by
          rw [lpCount_cons]
          simp [popWhileOp_rest_lpCount]
        have := ih ⟨st.out ++ (popWhileOp o st.stk).1,
          Tok.op o :: (popWhileOp o st.stk).2, some (Tok.op o)⟩ hnf2 hr2
        rw [show (⟨st.out ++ (popWhileOp o st.stk).1,
            Tok.op o :: (popWhileOp o st.stk).2, some (Tok.op o)⟩ : SYState).stk =
            Tok.op o :: (popWhileOp o st.stk).2 from rfl, hc] at this
        simpa [parensOK] using this
    | comma =>
      rw [toRPNFrom_cons]
      by_cases h0 : lpCount st.stk = 0
      · have hre : (popToLParen st.stk).2 = [] := (popToLParen_rest_empty_iff _).2 h0
        have hst : syStep st Tok.comma = .error "Misplaced comma or parentheses" := by
          simp [syStep, hre]
        rw [hst, except_bind_err]
        constructor
        · intro hp
          rw [h0] at hp
          simp [parensOK] at hp
        · intro _
          exact Or.inr rfl
      · have hpos : 0 < lpCount st.stk := Nat.pos_of_ne_zero h0
        rcases popToLParen_rest_head st.stk with hre | ⟨r2, hre⟩
        · exact absurd ((popToLParen_rest_empty_iff _).1 hre) h0
        · have hst : syStep st Tok.comma =
              .ok ⟨st.out ++ (popToLParen st.stk).1, (popToLParen st.stk).2,
                some Tok.comma⟩ := by
            simp [syStep, hre]
          rw [hst, except_bind_ok]
          have hr2 : Tok.rparen ∉ (popToLParen st.stk).2 := by
            intro hm
            exact hr (by
              rw [← popToLParen_append st.stk]
              exact List.mem_append_right _ hm)
          have hc : lpCount (popToLParen st.stk).2 = lpCount st.stk :=
            popToLParen_rest_lpCount st.stk
          have := ih ⟨st.out ++ (popToLParen st.stk).1, (popToLParen st.stk).2,
            some Tok.comma⟩ hnf2 hr2
          rw [show (⟨st.out ++ (popToLParen st.stk).1, (popToLParen st.stk).2,
              some Tok.comma⟩ : SYState).stk = (popToLParen st.stk).2 from rfl,
            hc] at this
          constructor
          · intro hp
            exact this.1 (by simpa [parensOK, hpos] using hp)
          · intro hp
            exact this.2 (by simpa [parensOK, hpos] using hp)
    | rparen =>
      rw [toRPNFrom_cons]
      by_cases h0 : lpCount st.stk = 0
      · have hre : (popToLParen st.stk).2 = [] := (popToLParen_rest_empty_iff _).2 h0
        have hst : syStep st Tok.rparen = .error "Mismatched parentheses" := by
          simp [syStep, hre]
        rw [hst, except_bind_err]
        constructor
        · intro hp
          rw [h0] at hp
          simp [parensOK] at hp
        · intro _
          exact Or.inl rfl
      · have hpos : 0 < lpCount st.stk := Nat.pos_of_ne_zero h0
        rcases popToLParen_rest_head st.stk with hre | ⟨r2, hre⟩
        · exact absurd ((popToLParen_rest_empty_iff _).1 hre) h0
        · have hr2 : Tok.rparen ∉ (popToLParen st.stk).2 := by
            intro hm
            exact hr (by
              rw [← popToLParen_append st.stk]
              exact List.mem_append_right _ hm)
          have hrr2 : Tok.rparen ∉ r2 := by
            intro hm
            exact hr2 (hre ▸ List.mem_cons_of_mem _ hm)
          have hlpr2 : lpCount r2 = lpCount st.stk - 1 := by
            have h1 : lpCount (popToLParen st.stk).2 = lpCount st.stk :=
              popToLParen_rest_lpCount st.stk
            rw [hre, lpCount_cons] at h1
            simp at h1
            omega
          -- the new state depends on the entry under the popped lparen
          have hkey : ∀ st2 : SYState, syStep st Tok.rparen = .ok st2 →
              lpCount st2.stk = lpCount st.stk - 1 → Tok.rparen ∉ st2.stk →
              ((parensOK (Tok.rparen :: ts) (lpCount st.stk) = true →
                 ∃ out, (syStep st Tok.rparen).bind (fun st3 => toRPNFrom st3 ts) = .ok out) ∧
               (parensOK (Tok.rparen :: ts) (lpCount st.stk) = false →
                 (syStep st Tok.rparen).bind (fun st3 => toRPNFrom st3 ts) =
                   .error "Mismatched parentheses" ∨
                 (syStep st Tok.rparen).bind (fun st3 => toRPNFrom st3 ts) =
                   .error "Misplaced comma or parentheses")) := by
            intro st2 hst hclp hrp
            rw [hst, except_bind_ok]
            have := ih st2 hnf2 hrp
            rw [hclp] at this
            constructor
            · intro hp
              exact this.1 (by simpa [parensOK, hpos] using hp)
            · intro hp
              exact this.2 (by simpa [parensOK, hpos] using hp)
          match hr2m : r2 with
          | [] =>
            refine hkey ⟨st.out ++ (popToLParen st.stk).1, [], some Tok.rparen⟩ ?_ ?_ ?_
            · simp [syStep, hre]
            · simpa [lpCount] using hlpr2
            · simp
          | Tok.name f :: r3 =>
            refine hkey ⟨st.out ++ (popToLParen st.stk).1 ++ [Tok.name f], r3,
              some Tok.rparen⟩ ?_ ?_ ?_
            · simp [syStep, hre]
            · have : lpCount (Tok.name f :: r3) = lpCount r3 := by
                rw [lpCount_cons]; simp
              rw [← hlpr2, ← this]
            · intro hm
              exact hrr2 (List.mem_cons_of_mem _ hm)
          | Tok.func f :: r3 =>
            refine hkey ⟨st.out ++ (popToLParen st.stk).1 ++ [Tok.func f], r3,
              some Tok.rparen⟩ ?_ ?_ ?_
            · simp [syStep, hre]
            · have : lpCount (Tok.func f :: r3) = lpCount r3 := by
                rw [lpCount_cons]; simp
              rw [← hlpr2, ← this]
            · intro hm
              exact hrr2 (List.mem_cons_of_mem _ hm)
          | Tok.num q :: r3 =>
            refine hkey ⟨st.out ++ (popToLParen st.stk).1, Tok.num q :: r3,
              some Tok.rparen⟩ ?_ ?_ ?_
            · simp [syStep, hre]
            · rw [← hlpr2]
            · exact hrr2
          | Tok.lparen :: r3 =>
            refine hkey ⟨st.out ++ (popToLParen st.stk).1, Tok.lparen :: r3,
              some Tok.rparen⟩ ?_ ?_ ?_
            · simp [syStep, hre]
            · rw [← hlpr2]
            · exact hrr2
          | Tok.rparen :: r3 =>
            exact absurd (List.mem_cons_self _ _) hrr2
          | Tok.comma :: r3 =>
            refine hkey ⟨st.out ++ (popToLParen st.stk).1, Tok.comma :: r3,
              some Tok.rparen⟩ ?_ ?_ ?_
            · simp [syStep, hre]
            · rw [← hlpr2]
            · exact hrr2
          | Tok.op o2 :: r3 =>
            refine hkey ⟨st.out ++ (popToLParen st.stk).1, Tok.op o2 :: r3,
              some Tok.rparen⟩ ?_ ?_ ?_
            · simp [syStep, hre]
            · rw [← hlpr2]
            · exact hrr2
          | Tok.post c :: r3 =>
            refine hkey ⟨st.out ++ (popToLParen st.stk).1, Tok.post c :: r3,
              some Tok.rparen⟩ ?_ ?_ ?_
            · simp [syStep, hre]
            · rw [← hlpr2]
            · exact hrr2
    | func s =>
      simp [noFuncB] at hnf

/-- C10: `toRPN` fails exactly on mismatched parentheses or a comma
outside any open paren, as measured by the spec-side scan `parensOK`, and
the failure carries one of the two ParseError messages; in particular the
token sequence of `"(2+3"` is rejected. -/
theorem c10_paren_mismatch :
    (∀ ts : List Tok, noFuncB ts = true →
      (((∃ out, toRPN ts = .ok out) ↔ parensOK ts 0 = true) ∧
       (parensOK ts 0 = false →
         toRPN ts = .error "Mismatched parentheses" ∨
         toRPN ts = .error "Misplaced comma or parentheses"))) ∧
    toRPN [Tok.lparen, Tok.num (Q.int 2), Tok.op .add, Tok.num (Q.int 3)] =
      .error "Mismatched parentheses" := by
  constructor
  · intro ts hnf
    have hmain := syParen_main ts ⟨[], [], none⟩ hnf (by simp)
    have h0 : lpCount (⟨[], [], none⟩ : SYState).stk = 0 := rfl
    rw [h0] at hmain
    constructor
    · constructor
      · intro ⟨out, hout⟩
        by_contra hc
        have hf : parensOK ts 0 = false := by
          cases hv : parensOK ts 0
          · rfl
          · exact absurd hv hc
        rcases hmain.2 hf with h | h <;>
          · rw [show toRPN ts = toRPNFrom ⟨[], [], none⟩ ts from rfl] at hout
            rw [h] at hout
            cases hout
      · intro hp
        exact hmain.1 hp
    · intro hp
      exact hmain.2 hp
  · decide

/-- C10, witness: the main part applied to the concrete token sequence of
`"(2+3"`. -/
theorem c10_witness :
    toRPN [Tok.lparen, Tok.num (Q.int 2), Tok.op .add, Tok.num (Q.int 3)] =
      .error "Mismatched parentheses" ∨
    toRPN [Tok.lparen, Tok.num (Q.int 2), Tok.op .add, Tok.num (Q.int 3)] =
      .error "Misplaced comma or parentheses" :=
  (c10_paren_mismatch.1 [Tok.lparen, Tok.num (Q.int 2), Tok.op .add, Tok.num (Q.int 3)]
    (by decide)).2 (by decide)

theorem syRun_append (ts1 ts2 : List Tok) :
    ∀ st : SYState, syRun (ts1 ++ ts2) st = (syRun ts1 st).bind (syRun ts2) := by
  induction ts1 with
  | nil => intro st; rfl
  | cons t ts1 ih =>
    intro st
    show (syStep st t).bind (syRun (ts1 ++ ts2)) = ((syStep st t).bind (syRun ts1)).bind (syRun ts2)
    cases syStep st t with
    | error m => rfl
    | ok st2 => exact ih st2

/-- The source's pop condition coincides with comparing the incoming
operator's precedence with the stack operator's right-operand level (a
finite check over the five-operator table). -/
theorem popCond_iff (o o2 : BinOp) : popCond o o2 = decide (prec o < nextMin o2) := by
  cases o <;> cases o2 <;> rfl

theorem popWhileOp_stop (o : BinOp) (stk : List Tok) (m : Nat)
    (hb : blockingB m stk = true) (hm : m ≤ prec o) : popWhileOp o stk = ([], stk) := by
  cases stk with
  | nil => rfl
  | cons t r =>
    cases t <;> try rfl
    case op o2 =>
      have h2 : nextMin o2 ≤ m := by simpa [blockingB] using hb
      have h3 : ¬(prec o < nextMin o2) := by omega
      simp [popWhileOp, popCond_iff, h3]

theorem popWhileOp_all (o : BinOp) (pend : List BinOp) (stk : List Tok)
    (h : ∀ n ∈ pend, popCond o n = true) (hs : popWhileOp o stk = ([], stk)) :
    popWhileOp o (pend.map Tok.op ++ stk) = (pend.map Tok.op, stk) := by
  induction pend with
  | nil => simpa using hs
  | cons n pend ih =>
    have hn : popCond o n = true := h n (List.mem_cons_self _ _)
    have ih2 := ih (fun x hx => h x (List.mem_cons_of_mem _ hx))
    simp [popWhileOp, hn, ih2]

theorem outOf_pend (e : AExp) : outOf e ++ (pendOf e).map Tok.op = rpnOf e := by
  induction e with
  | num q => rfl
  | bin o l r ihl ihr =>
    show (rpnOf l ++ outOf r) ++ ((pendOf r ++ [o]).map Tok.op) = rpnOf l ++ rpnOf r ++ [Tok.op o]
    rw [List.map_append, ← List.append_assoc, List.append_assoc (rpnOf l), ihr]
    simp

/-- Main shunting-yard lemma: processing the parenthesis-free flattening
of a canonical tree from any blocking stack emits `outOf e` and leaves the
right-spine operators pending above the untouched stack. -/
theorem syRun_flatten : ∀ (e : AExp) (m : Nat) (out stk : List Tok) (prev : Option Tok),
    fitB e m = true → blockingB m stk = true →
    syRun (flatten e) ⟨out, stk, prev⟩ =
      .ok ⟨out ++ outOf e, (pendOf e).map Tok.op ++ stk, some (Tok.num (lastNum e))⟩ := by
  intro e
  induction e with
  | num q =>
    intro m out stk prev _ _
    simp [flatten, syRun, syStep, outOf, pendOf, lastNum, except_bind_ok]
  | bin o l r ihl ihr =>
    intro m out stk prev hf hb
    simp only [fitB, Bool.and_eq_true, List.all_eq_true, decide_eq_true_eq] at hf
    obtain ⟨⟨⟨hm, hfl⟩, hall⟩, hfr⟩ := hf
    rw [show flatten (AExp.bin o l r) = flatten l ++ (Tok.op o :: flatten r) from rfl]
    rw [syRun_append, ihl m out stk prev hfl hb, except_bind_ok]
    rw [show syRun (Tok.op o :: flatten r)
        ⟨out ++ outOf l, (pendOf l).map Tok.op ++ stk, some (Tok.num (lastNum l))⟩ =
        (syStep ⟨out ++ outOf l, (pendOf l).map Tok.op ++ stk, some (Tok.num (lastNum l))⟩
          (Tok.op o)).bind (syRun (flatten r)) from rfl]
    have hpw : popWhileOp o ((pendOf l).map Tok.op ++ stk) = ((pendOf l).map Tok.op, stk) :=
      popWhileOp_all o (pendOf l) stk
        (fun n hn => by rw [popCond_iff]; exact decide_eq_true (hall n hn))
        (popWhileOp_stop o stk m hb hm)
    have hstep : syStep
        ⟨out ++ outOf l, (pendOf l).map Tok.op ++ stk, some (Tok.num (lastNum l))⟩
        (Tok.op o) =
        .ok ⟨(out ++ outOf l) ++ (pendOf l).map Tok.op, Tok.op o :: stk, some (Tok.op o)⟩ := by
      simp [syStep, isUnaryPos, hpw]
    rw [hstep, except_bind_ok]
    rw [ihr (nextMin o) ((out ++ outOf l) ++ (pendOf l).map Tok.op) (Tok.op o :: stk)
      (some (Tok.op o)) hfr (by simp [blockingB])]
    have h1 : (out ++ outOf l) ++ (pendOf l).map Tok.op = out ++ rpnOf l := by
      rw [List.append_assoc, outOf_pend]
    have hout : ((out ++ outOf l) ++ (pendOf l).map Tok.op) ++ outOf r =
        out ++ outOf (AExp.bin o l r) := by
      show _ = out ++ (rpnOf l ++ outOf r)
      rw [h1, List.append_assoc]
    rw [hout]
    show Except.ok (⟨_, (pendOf r).map Tok.op ++ (Tok.op o :: stk), _⟩ : SYState) = _
    simp [pendOf, lastNum]

/-- On the flattening of a canonical tree, `toRPN` succeeds and produces
exactly the tree's postfix rendering. -/
theorem toRPN_flatten (e : AExp) (h : fitB e 0 = true) :
    toRPN (flatten e) = .ok (rpnOf e) := by
  show toRPNFrom ⟨[], [], none⟩ (flatten e) = _
  unfold toRPNFrom
  rw [syRun_flatten e 0 [] [] none h rfl, except_bind_ok]
  have hany : ((pendOf e).map Tok.op ++ ([] : List Tok)).any
      (fun t => t = Tok.lparen || t = Tok.rparen) = false := by
    rw [List.any_eq_false]
    intro x hx
    simp only [List.append_nil, List.mem_map] at hx
    obtain ⟨n, _, rfl⟩ := hx
    simp
  simp [syFinish, hany, outOf_pend]

theorem evalSteps_append (M : MathFns) (b : Bool) (ts1 ts2 : List Tok) :
    ∀ st : List JSNum,
    evalSteps M b (ts1 ++ ts2) st = (evalSteps M b ts1 st).bind (evalSteps M b ts2) := by
  induction ts1 with
  | nil => intro st; rfl
  | cons t ts1 ih =>
    intro st
    show (evalStep M b st t).bind (evalSteps M b (ts1 ++ ts2)) =
      ((evalStep M b st t).bind (evalSteps M b ts1)).bind (evalSteps M b ts2)
    cases evalStep M b st t with
    | error m => rfl
    | ok st2 => exact ih st2

/-- If evaluating the postfix rendering of a tree (followed by anything)
succeeds, the tree's reference value is what lands on the stack. -/
theorem evalSteps_rpnOf (M : MathFns) (b : Bool) :
    ∀ (e : AExp) (rest : List Tok) (st : List JSNum) (res : List JSNum),
    evalSteps M b (rpnOf e ++ rest) st = .ok res →
    evalSteps M b rest (specEval M e :: st) = .ok res := by
  intro e
  induction e with
  | num q =>
    intro rest st res h
    simpa [rpnOf, evalSteps, evalStep, specEval, except_bind_ok] using h
  | bin o l r ihl ihr =>
    intro rest st res h
    have hsplit : rpnOf (AExp.bin o l r) ++ rest =
        rpnOf l ++ (rpnOf r ++ ([Tok.op o] ++ rest)) := by
      simp [rpnOf, List.append_assoc]
    rw [hsplit] at h
    have h2 := ihl (rpnOf r ++ ([Tok.op o] ++ rest)) st res h
    have h3 := ihr ([Tok.op o] ++ rest) (specEval M l :: st) res h2
    have h4 : (if isFiniteB (opFn M o (specEval M l) (specEval M r)) then
        Except.ok (opFn M o (specEval M l) (specEval M r) :: st)
        else Except.error "Math error").bind (evalSteps M b rest) = .ok res := h3
    split at h4
    · rw [except_bind_ok] at h4
      exact h4
    · rw [except_bind_err] at h4
      exact Except.noConfusion h4

/-- C5: on every parenthesis-free arithmetic token sequence — rendered as
the flattening of its canonical (standard-reading) tree — a successful run
of the pipeline returns exactly the standard precedence/associativity-
respecting evaluation; in particular the spec's three examples hold. -/
theorem c5_standard_precedence :
    (∀ (M : MathFns) (b : Bool) (e : AExp) (v : JSNum),
      fitB e 0 = true →
      (toRPN (flatten e)).bind (evalRPN M b) = .ok v →
      v = specEval M e) ∧
    evaluate stubMath true "2+3*4" = .ok (.fin (Q.int 14)) ∧
    evaluate stubMath true "2^3^2" = .ok (.fin (Q.int 512)) ∧
    evaluate stubMath true "10-2-3" = .ok (.fin (Q.int 5)) := by
  refine ⟨?_, by decide, by decide, by decide⟩
  intro M b e v hf hok
  rw [toRPN_flatten e hf, except_bind_ok] at hok
  unfold evalRPN at hok
  cases hs : evalSteps M b (rpnOf e) [] with
  | error m =>
    rw [hs, except_bind_err] at hok
    exact Except.noConfusion hok
  | ok st2 =>
    rw [hs, except_bind_ok] at hok
    have hs2 : evalSteps M b (rpnOf e ++ []) [] = .ok st2 := by simpa using hs
    have h3 := evalSteps_rpnOf M b e [] [] st2 hs2
    have hst : [specEval M e] = st2 := by
      have : Except.ok [specEval M e] = Except.ok st2 := h3
      cases this
      rfl
    rw [← hst] at hok
    have h4 : (if isFiniteB (specEval M e) then Except.ok (specEval M e)
        else Except.error "Result not finite") = Except.ok v := hok
    split at h4
    · cases h4
      rfl
    · exact Except.noConfusion h4

/-- C5, witness: the general part applied to the canonical tree of
`2+3*4`. -/
theorem c5_witness :
    JSNum.fin (Q.int 14) =
      specEval stubMath
        (AExp.bin .add (.num (Q.int 2)) (.bin .mul (.num (Q.int 3)) (.num (Q.int 4)))) :=
  c5_standard_precedence.1 stubMath true
    (AExp.bin .add (.num (Q.int 2)) (.bin .mul (.num (Q.int 3)) (.num (Q.int 4))))
    (JSNum.fin (Q.int 14)) (by decide) (by decide)

end AiCalc

